import Mathlib

/-!
Verification development for the multi-agent orchestrator
(`src/orchestrator/multi_agent_orchestrator.py`).

The Python data model and operations are shallowly embedded as executable
Lean definitions:

* `AgentTask` / `ExecutionPlan` carry the same fields as the Python
  dataclasses, except wall-clock timestamps (`created_at`, `started_at`,
  `completed_at`), which no studied property depends on; Python status
  strings are kept as `String`s.
* Python dicts are embedded as association lists with first-occurrence
  lookup and replace-in-place insertion (`dlookup` / `dinsert`), which
  matches CPython's insertion-ordered dict semantics; `del` is `derase`.
* The scheduling loop of `Orchestrator._execute_plan` is a fuel-indexed
  recursion (`execLoop`) returning `none` when the fuel is exhausted, so
  that termination of the Python `while True` loop is a provable statement
  (the loop runs at most one iteration per initially-pending task plus the
  final exit iteration).
* Agents are abstracted by an environment mapping each agent type to an
  optional implementation whose `execute_task` either returns a result
  dictionary or raises (`Except.error`), exactly the dispatch interface
  `Orchestrator._execute_task` consumes.
-/

/-- The `AgentType` enumeration (`class AgentType(str, Enum)`). -/
inductive AgentType where
  | infrastructure
  | deployment
  | monitoring
  | security
  | cost
deriving DecidableEq

/-- The string value of each `AgentType` member. -/
def AgentType.val : AgentType → String
  | .infrastructure => "infrastructure"
  | .deployment => "deployment"
  | .monitoring => "monitoring"
  | .security => "security"
  | .cost => "cost"

/-- The `AgentTask` dataclass.  Result dictionaries are embedded as
string-to-string association lists; timestamps are omitted (see the header
comment). -/
structure AgentTask where
  id : String
  agent_type : AgentType
  description : String
  parameters : List (String × String)
  depends_on : List String
  status : String
  result : Option (List (String × String))
deriving DecidableEq

/-- `AgentTask.mark_started`: `self.status = "running"`. -/
def AgentTask.mark_started (t : AgentTask) : AgentTask :=
  { t with status := "running" }

/-- `AgentTask.mark_completed`: `self.status = "completed"; self.result = result`. -/
def AgentTask.mark_completed (t : AgentTask) (result : List (String × String)) : AgentTask :=
  { t with status := "completed", result := some result }

/-- `AgentTask.mark_failed`: `self.status = "failed"; self.result = {"error": error}`. -/
def AgentTask.mark_failed (t : AgentTask) (error : String) : AgentTask :=
  { t with status := "failed", result := some [("error", error)] }

/-- The `ExecutionPlan` dataclass (timestamps omitted). -/
structure ExecutionPlan where
  id : String
  name : String
  description : String
  tasks : List AgentTask
  status : String
deriving DecidableEq

/-- The set `completed_task_ids = {t.id for t in self.tasks if t.status == "completed"}`
computed by `get_next_runnable_tasks`, as a list of ids. -/
def completedTaskIds (tasks : List AgentTask) : List String :=
  (tasks.filter (fun t => decide (t.status = "completed"))).map (fun t => t.id)

/-- The list-comprehension predicate of `get_next_runnable_tasks`:
`task.status == "pending" and all(dep in completed_task_ids for dep in task.depends_on)`. -/
def isRunnable (completed_task_ids : List String) (t : AgentTask) : Bool :=
  decide (t.status = "pending") && t.depends_on.all (fun d => decide (d ∈ completed_task_ids))

/-- `ExecutionPlan.get_next_runnable_tasks`. -/
def ExecutionPlan.get_next_runnable_tasks (p : ExecutionPlan) : List AgentTask :=
  p.tasks.filter (isRunnable (completedTaskIds p.tasks))

/-- `ExecutionPlan.is_complete`: `all(task.status in ["completed", "failed"] for task in self.tasks)`. -/
def ExecutionPlan.is_complete (p : ExecutionPlan) : Bool :=
  p.tasks.all (fun t => decide (t.status = "completed") || decide (t.status = "failed"))

/-- `ExecutionPlan.mark_started`. -/
def ExecutionPlan.mark_started (p : ExecutionPlan) : ExecutionPlan :=
  { p with status := "running" }

/-- `ExecutionPlan.mark_completed`. -/
def ExecutionPlan.mark_completed (p : ExecutionPlan) : ExecutionPlan :=
  { p with status := "completed" }

/-- `ExecutionPlan.mark_failed`. -/
def ExecutionPlan.mark_failed (p : ExecutionPlan) : ExecutionPlan :=
  { p with status := "failed" }

/-- An agent as consumed by `Orchestrator._execute_task`: `execute_task`
either returns a result dictionary or raises (`Except.error msg`). -/
structure AgentImpl where
  execute_task : AgentTask → Except String (List (String × String))

/-- The orchestrator's agent registry `self.agents`, as a lookup function
(`self.agents.get(task.agent_type)` is `env ty`). -/
abbrev AgentEnv := AgentType → Option AgentImpl

/-- The message of the `ValueError` raised by `_execute_task` when no agent
is registered for the task's type. -/
def noAgentError (ty : AgentType) : String :=
  "No agent available for type: " ++ ty.val

/-- `Orchestrator._execute_task`: mark the task started, look up the agent,
run it, and convert any raised exception (including the missing-agent
`ValueError`) into `mark_failed` on the task.  The function is total: no
exception propagates to the scheduling loop. -/
def executeTask (env : AgentEnv) (t : AgentTask) : AgentTask :=
  match env t.agent_type with
  | none => (t.mark_started).mark_failed (noAgentError t.agent_type)
  | some ag =>
    match ag.execute_task t.mark_started with
    | Except.ok r => (t.mark_started).mark_completed r
    | Except.error e => (t.mark_started).mark_failed e

/-- One iteration body of the `while True` loop of `_execute_plan`: take the
runnable snapshot and dispatch every task in it.  Dispatch of one task only
mutates that task, so executing the snapshot sequentially equals mapping
`executeTask` over exactly the tasks that were runnable in the snapshot. -/
def stepPlan (env : AgentEnv) (p : ExecutionPlan) : ExecutionPlan :=
  { p with tasks := p.tasks.map (fun t =>
      if isRunnable (completedTaskIds p.tasks) t then executeTask env t else t) }

/-- The `while True` scheduling loop of `_execute_plan`, indexed by fuel;
`none` means the loop would still be running after `fuel` iterations.  The
`if plan_id not in self.active_plans: break` guard is omitted: under the
single-driver semantics of the engine the entry is present for the whole
loop (it is inserted before the loop starts and deleted only after it
exits). -/
def execLoop (env : AgentEnv) : Nat → ExecutionPlan → Option ExecutionPlan
  | 0, _ => none
  | Nat.succ fuel, p =>
    if p.get_next_runnable_tasks = [] then
      some (if p.is_complete then p.mark_completed else p.mark_failed)
    else
      execLoop env fuel (stepPlan env p)

/-- Number of tasks with status `"pending"`, the loop's termination measure. -/
def countPending (tasks : List AgentTask) : Nat :=
  tasks.countP (fun t => decide (t.status = "pending"))

/-- `_execute_plan` on a plan already registered in `active_plans`: mark the
plan started and run the scheduling loop.  The fuel `countPending + 1`
suffices, which is the content of the termination theorem below. -/
def executePlanRun (env : AgentEnv) (p : ExecutionPlan) : Option ExecutionPlan :=
  execLoop env (countPending p.tasks + 1) p.mark_started

/-- Character-list substring test: Python's `needle in haystack`. -/
def subIn (needle : List Char) : List Char → Bool
  | [] => needle.isEmpty
  | c :: rest => needle.isPrefixOf (c :: rest) || subIn needle rest

/-- Python's `keyword in text` on strings. -/
def strContains (haystack needle : String) : Bool :=
  subIn needle.toList haystack.toList

/-- Python's `str.lower()` (the keyword vocabularies are ASCII). -/
def strLower (s : String) : String :=
  String.mk (s.toList.map Char.toLower)

/-- `InfrastructureAgent.can_handle`'s keyword vocabulary. -/
def infrastructureKeywords : List String :=
  ["ec2", "s3", "vpc", "subnet", "security group", "load balancer",
   "create instance", "launch instance", "provision", "infrastructure"]

/-- `DeploymentAgent.can_handle`'s keyword vocabulary. -/
def deploymentKeywords : List String :=
  ["deploy", "release", "version", "build", "pipeline", "ci/cd",
   "continuous integration", "continuous deployment", "git", "docker"]

/-- `MonitoringAgent.can_handle`'s keyword vocabulary. -/
def monitoringKeywords : List String :=
  ["monitor", "alert", "metric", "log", "dashboard", "cloudwatch",
   "performance", "health", "status", "notification"]

/-- The shared `can_handle` shape:
`any(keyword in task_description.lower() for keyword in keywords)`. -/
def canHandleKeywords (keywords : List String) (task_description : String) : Bool :=
  keywords.any (fun kw => strContains (strLower task_description) kw)

/-- `InfrastructureAgent.can_handle`. -/
def infraCanHandle (r : String) : Bool := canHandleKeywords infrastructureKeywords r

/-- `DeploymentAgent.can_handle`. -/
def deployCanHandle (r : String) : Bool := canHandleKeywords deploymentKeywords r

/-- `MonitoringAgent.can_handle`. -/
def monitorCanHandle (r : String) : Bool := canHandleKeywords monitoringKeywords r

/-- The orchestrator's `self.agents` dict as iterated by `analyze_request`:
insertion order infrastructure, deployment, monitoring, each paired with its
`can_handle` predicate. -/
def registeredAgents : List (AgentType × (String → Bool)) :=
  [(AgentType.infrastructure, infraCanHandle),
   (AgentType.deployment, deployCanHandle),
   (AgentType.monitoring, monitorCanHandle)]

/-- `Orchestrator.analyze_request`: collect the types whose agent claims the
request; default to `[infrastructure]` when none does. -/
def analyzeRequest (request : String) : List AgentType :=
  let required := (registeredAgents.filter (fun a => a.2 request)).map Prod.fst
  if required = [] then [AgentType.infrastructure] else required

/-- Python's `str.capitalize()` as used on enum values (`"infrastructure"`
to `"Infrastructure"`). -/
def pyCapitalize (s : String) : String :=
  match s.toList with
  | [] => ""
  | c :: cs => String.mk (c.toUpper :: cs.map Char.toLower)

/-- The task built by iteration `i` of the loop in `Orchestrator.create_plan`. -/
def mkTask (plan_id request : String) (i : Nat) (ty : AgentType) : AgentTask :=
  { id := plan_id ++ "-task-" ++ toString i,
    agent_type := ty,
    description := pyCapitalize ty.val ++ " task for: " ++ request,
    parameters := [],
    depends_on := if i = 0 then [] else [plan_id ++ "-task-" ++ toString (i - 1)],
    status := "pending",
    result := none }

/-- The `for i, agent_type in enumerate(required_agent_types)` loop of
`create_plan`, with `i` starting at the given index. -/
def mkTasksFrom (plan_id request : String) : Nat → List AgentType → List AgentTask
  | _, [] => []
  | i, ty :: tys => mkTask plan_id request i ty :: mkTasksFrom plan_id request (i + 1) tys

/-- `Orchestrator.create_plan`.  The time-derived `plan_id` is an explicit
parameter; `plan_name = None` uses the default name. -/
def createPlan (plan_id : String) (plan_name : Option String) (request : String) : ExecutionPlan :=
  { id := plan_id,
    name := plan_name.getD ("Plan for: " ++ request.take 50 ++ "..."),
    description := request,
    tasks := mkTasksFrom plan_id request 0 (analyzeRequest request),
    status := "pending" }

/-- First-occurrence lookup in a Python-dict-as-association-list. -/
def dlookup {β : Type} : List (String × β) → String → Option β
  | [], _ => none
  | (k, v) :: d, k' => if k = k' then some v else dlookup d k'

/-- Python dict assignment `d[k] = v`: replace the value at the first
occurrence of `k`, keeping its position, or append a fresh key. -/
def dinsert {β : Type} : List (String × β) → String → β → List (String × β)
  | [], k, v => [(k, v)]
  | (k', v') :: d, k, v => if k' = k then (k, v) :: d else (k', v') :: dinsert d k v

/-- Python dict deletion `del d[k]`. -/
def derase {β : Type} (d : List (String × β)) (k : String) : List (String × β) :=
  d.filter (fun e => decide (¬ e.1 = k))

/-- The key list of a dict. -/
def dkeys {β : Type} (d : List (String × β)) : List String :=
  d.map Prod.fst

/-- A resource record as built by `KnowledgeBase.register_resource`:
`{"type": ..., "id": ..., "metadata": ..., "created_at": ...}`.  Metadata is
an opaque JSON-serializable payload (one `String`); `created_at` is the
registration timestamp, passed explicitly. -/
structure Resource where
  type : String
  id : String
  metadata : String
  created_at : Nat
deriving DecidableEq

/-- The two resource stores of `KnowledgeBase`: `resources` (by id) and the
secondary index `resources_by_type`.  The deployments list and agent
memories are elided: the studied claims concern only the resource pair. -/
structure KnowledgeBase where
  resources : List (String × Resource)
  resources_by_type : List (String × List (String × Resource))
deriving DecidableEq

/-- A fresh `KnowledgeBase()` with no backing file. -/
def kbEmpty : KnowledgeBase := { resources := [], resources_by_type := [] }

/-- The index update performed both by `register_resource` and by each
iteration of the rebuild loop in `load`:
create the type bucket if absent, then set `index[type][id] = record`. -/
def indexInsert (idx : List (String × List (String × Resource)))
    (ty rid : String) (r : Resource) : List (String × List (String × Resource)) :=
  dinsert idx ty (dinsert ((dlookup idx ty).getD []) rid r)

/-- `KnowledgeBase.register_resource`.  The new record overwrites
`resources[id]` and is written into the bucket of its (new) type; any entry
for the same id under a previously used type is left in place. -/
def KnowledgeBase.register_resource (kb : KnowledgeBase)
    (resource_type resource_id : String) (metadata : String) (now : Nat) : KnowledgeBase :=
  let r : Resource :=
    { type := resource_type, id := resource_id, metadata := metadata, created_at := now }
  { resources := dinsert kb.resources resource_id r,
    resources_by_type := indexInsert kb.resources_by_type resource_type resource_id r }

/-- `KnowledgeBase.get_resource`. -/
def KnowledgeBase.get_resource (kb : KnowledgeBase) (resource_id : String) : Option Resource :=
  dlookup kb.resources resource_id

/-- `KnowledgeBase.get_resources_by_type`: `self.resources_by_type.get(type, {})`. -/
def KnowledgeBase.get_resources_by_type (kb : KnowledgeBase)
    (resource_type : String) : List (String × Resource) :=
  (dlookup kb.resources_by_type resource_type).getD []

/-- The index-rebuild loop of `KnowledgeBase.load`: iterate the loaded
`resources` in order and insert each record under its recorded type. -/
def rebuildIndex (rs : List (String × Resource)) : List (String × List (String × Resource)) :=
  rs.foldl (fun idx e => indexInsert idx e.2.type e.1 e.2) []

/-- The `resources` section of the JSON document written by
`KnowledgeBase.save`.  JSON serialization followed by parsing is modelled
as the identity on the stored mapping. -/
def KnowledgeBase.save (kb : KnowledgeBase) : List (String × Resource) :=
  kb.resources

/-- `KnowledgeBase.load` on a fresh instance backed by the given saved
document: adopt the saved `resources` and rebuild the type index from it. -/
def loadKB (saved : List (String × Resource)) : KnowledgeBase :=
  { resources := saved, resources_by_type := rebuildIndex saved }

/-- One recorded call to `register_resource`. -/
structure RegOp where
  type : String
  id : String
  metadata : String
  now : Nat
deriving DecidableEq

/-- Replay a sequence of `register_resource` calls. -/
def applyRegs (ops : List RegOp) (kb : KnowledgeBase) : KnowledgeBase :=
  ops.foldl (fun k o => k.register_resource o.type o.id o.metadata o.now) kb

/-- A call sequence is type-consistent when no id is registered under two
different resource types. -/
def consistentOps : List RegOp → Bool
  | [] => true
  | o :: os =>
    os.all (fun o2 => !decide (o2.id = o.id) || decide (o2.type = o.type)) && consistentOps os

/-- Pointwise (Python `==`) equality of two dicts. -/
def dictEqv {β : Type} (d1 d2 : List (String × β)) : Prop :=
  ∀ k, dlookup d1 k = dlookup d2 k

/-- Python `==` on optional inner dicts: a missing bucket equals only a
missing bucket, present buckets are compared pointwise. -/
def innerOptEqv : Option (List (String × Resource)) → Option (List (String × Resource)) → Prop
  | none, none => True
  | some a, some b => dictEqv a b
  | _, _ => False

/-- Python `==` on two type indexes (dict of dicts). -/
def idxEqv (i1 i2 : List (String × List (String × Resource))) : Prop :=
  ∀ ty, innerOptEqv (dlookup i1 ty) (dlookup i2 ty)

/-- The orchestrator's `active_plans` registry. -/
structure OrchState where
  active_plans : List (String × ExecutionPlan)
deriving DecidableEq

/-- `Orchestrator.get_plan_status`: `self.active_plans.get(plan_id)`. -/
def getPlanStatus (st : OrchState) (plan_id : String) : Option ExecutionPlan :=
  dlookup st.active_plans plan_id

/-- Synchronous `Orchestrator.execute_plan` followed by `_execute_plan`:
register the plan, look it up (the missing-plan `ValueError` cannot fire
here), run the scheduling loop, then delete the registry entry and return
the finished plan.  `none` only if the loop's fuel were insufficient. -/
def executePlanSync (env : AgentEnv) (st : OrchState) (plan : ExecutionPlan) :
    Option (OrchState × ExecutionPlan) :=
  let st1 : OrchState := { active_plans := dinsert st.active_plans plan.id plan }
  match dlookup st1.active_plans plan.id with
  | none => none
  | some p =>
    match execLoop env (countPending p.tasks + 1) p.mark_started with
    | none => none
    | some q => some ({ active_plans := derase st1.active_plans plan.id }, q)

/-- A stalled-pending witness: a nonempty id set such that every id names a
task of the plan, and every task of the plan carrying one of these ids is
pending with at least one dependency inside the set.  The tasks on any
dependency cycle form such a set. -/
def cyclePending (tasks : List AgentTask) (ids : List String) : Prop :=
  ids ≠ [] ∧ (∀ i ∈ ids, ∃ t ∈ tasks, t.id = i) ∧
    (∀ t ∈ tasks, t.id ∈ ids → t.status = "pending" ∧ ∃ d ∈ t.depends_on, d ∈ ids)

instance (tasks : List AgentTask) (ids : List String) : Decidable (cyclePending tasks ids) := by
  unfold cyclePending
  infer_instance

/-- Scenario request of the spec: EC2/S3 keywords select the infrastructure
agent, the word deploy selects the deployment agent. -/
def scenarioRequest : String :=
  "Deploy a web application with EC2 instances and S3 storage"

/-- Task 1 of the three-task linear chain of Scenario B. -/
def chainTask1 : AgentTask :=
  { id := "t1", agent_type := AgentType.infrastructure, description := "task 1",
    parameters := [], depends_on := [], status := "pending", result := none }

/-- Task 2 of the chain: depends on task 1; its agent call will raise. -/
def chainTask2 : AgentTask :=
  { id := "t2", agent_type := AgentType.infrastructure, description := "task 2",
    parameters := [], depends_on := ["t1"], status := "pending", result := none }

/-- Task 3 of the chain: depends on task 2. -/
def chainTask3 : AgentTask :=
  { id := "t3", agent_type := AgentType.infrastructure, description := "task 3",
    parameters := [], depends_on := ["t2"], status := "pending", result := none }

/-- The three-task linear plan of Scenario B. -/
def chainPlan : ExecutionPlan :=
  { id := "plan-chain", name := "chain", description := "three task linear chain",
    tasks := [chainTask1, chainTask2, chainTask3], status := "pending" }

/-- An agent registry whose agents succeed with a fixed result, except that
executing the task with id t2 raises. -/
def chainEnv : AgentEnv := fun _ =>
  some { execute_task := fun t =>
    if t.id = "t2" then Except.error "agent failure on task 2"
    else Except.ok [("status", "ok")] }

/-- Task a of a two-task dependency cycle. -/
def cycTaskA : AgentTask :=
  { id := "a", agent_type := AgentType.infrastructure, description := "task a",
    parameters := [], depends_on := ["b"], status := "pending", result := none }

/-- Task b of the cycle: depends back on task a. -/
def cycTaskB : AgentTask :=
  { id := "b", agent_type := AgentType.infrastructure, description := "task b",
    parameters := [], depends_on := ["a"], status := "pending", result := none }

/-- A plan whose two pending tasks form a dependency cycle. -/
def cyclePlan : ExecutionPlan :=
  { id := "plan-cycle", name := "cycle", description := "two tasks in a cycle",
    tasks := [cycTaskA, cycTaskB], status := "pending" }

/-- The two `register_resource` calls of the round-trip counterexample: the
same id x is registered first under type A, then under type B. -/
def retypeOps : List RegOp :=
  [{ type := "A", id := "x", metadata := "m1", now := 0 },
   { type := "B", id := "x", metadata := "m2", now := 1 }]

/-- A type-consistent registration sequence: id x is overwritten but keeps
its type, id y has its own type. -/
def consistentOpsExample : List RegOp :=
  [{ type := "A", id := "x", metadata := "m1", now := 0 },
   { type := "A", id := "x", metadata := "m2", now := 1 },
   { type := "B", id := "y", metadata := "m3", now := 2 }]

/-- One status-mutating operation on a task (the three `mark_*` methods). -/
inductive TaskOp where
  | started
  | completed (result : List (String × String))
  | failed (error : String)

/-- Apply one `mark_*` call. -/
def applyOp (t : AgentTask) : TaskOp → AgentTask
  | .started => t.mark_started
  | .completed r => t.mark_completed r
  | .failed e => t.mark_failed e

/-- Apply a sequence of `mark_*` calls in order. -/
def applyOps (t : AgentTask) (ops : List TaskOp) : AgentTask :=
  ops.foldl applyOp t

/-- The value the exact grouping of `resources` by type holds at bucket `ty`,
key `rid`: the resource stored under `rid`, if its recorded type is `ty`. -/
def groupLookup (rs : List (String × Resource)) (ty rid : String) : Option Resource :=
  match dlookup rs rid with
  | some r => if r.type = ty then some r else none
  | none => none

/-- The type index `idx` is exactly the grouping of the resource map `rs` by
type: a bucket is absent precisely when no resource has its type, and a
present bucket agrees pointwise with the grouping. -/
def IndexGroups (idx : List (String × List (String × Resource)))
    (rs : List (String × Resource)) : Prop :=
  (∀ ty, dlookup idx ty = none → ∀ e ∈ rs, e.2.type ≠ ty) ∧
  (∀ ty inner, dlookup idx ty = some inner →
     (∃ e ∈ rs, e.2.type = ty) ∧ ∀ rid, dlookup inner rid = groupLookup rs ty rid)

/-- Every future registration of an id already present in `rs` keeps its
recorded type. -/
def compatOps (rs : List (String × Resource)) (ops : List RegOp) : Prop :=
  ∀ o ∈ ops, ∀ r, dlookup rs o.id = some r → r.type = o.type

theorem dlookup_dinsert_self {β : Type} (d : List (String × β)) (k : String) (v : β) :
    dlookup (dinsert d k v) k = some v := by
  induction d with
  | nil => simp [dinsert, dlookup]
  | cons e d ih =>
    by_cases h : e.1 = k
    · simp [dinsert, dlookup, h]
    · simp [dinsert, dlookup, h, ih]

theorem dlookup_dinsert_ne {β : Type} (d : List (String × β)) (k k' : String) (v : β)
    (h : k ≠ k') : dlookup (dinsert d k v) k' = dlookup d k' := by
  induction d with
  | nil => simp [dinsert, dlookup, h]
  | cons e d ih =>
    by_cases he : e.1 = k
    · simp [dinsert, dlookup, he, h]
    · by_cases he' : e.1 = k'
      · simp [dinsert, dlookup, he, he', Ne.symm h]
      · simp [dinsert, dlookup, he, he', ih]

/-- Claim C9: re-registering an id under a different resource type leaves the
stale entry under the old type in the index.  `get_resource` and the new
type's bucket return the new record, the old type's bucket still maps the id
to the old record, and the two records disagree, so the index is no longer
the exact grouping of `resources` by type. -/
theorem c9_retype_leaves_stale_index_entry (kb : KnowledgeBase)
    (ty1 ty2 rid m1 m2 : String) (n1 n2 : Nat) (h : ty1 ≠ ty2) :
    ((kb.register_resource ty1 rid m1 n1).register_resource ty2 rid m2 n2).get_resource rid
        = some { type := ty2, id := rid, metadata := m2, created_at := n2 } ∧
    dlookup (((kb.register_resource ty1 rid m1 n1).register_resource ty2 rid m2 n2).get_resources_by_type ty2) rid
        = some { type := ty2, id := rid, metadata := m2, created_at := n2 } ∧
    dlookup (((kb.register_resource ty1 rid m1 n1).register_resource ty2 rid m2 n2).get_resources_by_type ty1) rid
        = some { type := ty1, id := rid, metadata := m1, created_at := n1 } ∧
    ({ type := ty2, id := rid, metadata := m2, created_at := n2 } : Resource)
        ≠ { type := ty1, id := rid, metadata := m1, created_at := n1 } := by
  refine ⟨?_, ?_, ?_, ?_⟩
  · unfold KnowledgeBase.get_resource KnowledgeBase.register_resource
    simp [dlookup_dinsert_self]
  · unfold KnowledgeBase.get_resources_by_type KnowledgeBase.register_resource indexInsert
    simp [dlookup_dinsert_self]
  · unfold KnowledgeBase.get_resources_by_type KnowledgeBase.register_resource indexInsert
    rw [dlookup_dinsert_ne _ _ _ _ (fun hc => h hc.symm)]
    simp [dlookup_dinsert_self]
  · intro heq
    exact h (congrArg Resource.type heq).symm

theorem c9_retype_leaves_stale_index_entry_witness :
    (("A" : String) ≠ "B") ∧
    (((kbEmpty.register_resource "A" "x" "m1" 0).register_resource "B" "x" "m2" 1).get_resource "x"
        = some { type := "B", id := "x", metadata := "m2", created_at := 1 } ∧
    dlookup (((kbEmpty.register_resource "A" "x" "m1" 0).register_resource "B" "x" "m2" 1).get_resources_by_type "B") "x"
        = some { type := "B", id := "x", metadata := "m2", created_at := 1 } ∧
    dlookup (((kbEmpty.register_resource "A" "x" "m1" 0).register_resource "B" "x" "m2" 1).get_resources_by_type "A") "x"
        = some { type := "A", id := "x", metadata := "m1", created_at := 0 } ∧
    ({ type := "B", id := "x", metadata := "m2", created_at := 1 } : Resource)
        ≠ { type := "A", id := "x", metadata := "m1", created_at := 0 }) :=
  ⟨by decide, c9_retype_leaves_stale_index_entry kbEmpty "A" "B" "x" "m1" "m2" 0 1 (by decide)⟩

/-- Claim C2: a task of a plan is returned by `get_next_runnable_tasks` iff
it is pending and every id in its dependency list names a completed task of
the same plan; a dependency on a failed or nonexistent id therefore never
makes it runnable. -/
theorem c2_runnable_iff_pending_and_deps_completed (p : ExecutionPlan) (t : AgentTask)
    (hmem : t ∈ p.tasks) :
    t ∈ p.get_next_runnable_tasks ↔
      (t.status = "pending" ∧
        ∀ d ∈ t.depends_on, ∃ u ∈ p.tasks, u.id = d ∧ u.status = "completed") := by
  unfold ExecutionPlan.get_next_runnable_tasks isRunnable completedTaskIds
  rw [List.mem_filter]
  simp only [hmem, true_and, Bool.and_eq_true, decide_eq_true_eq, List.all_eq_true,
    List.mem_map, List.mem_filter]
  constructor
  · rintro ⟨hp, hall⟩
    refine ⟨hp, fun d hd => ?_⟩
    obtain ⟨u, ⟨hu, hc⟩, hid⟩ := hall d hd
    exact ⟨u, hu, hid, hc⟩
  · rintro ⟨hp, hall⟩
    refine ⟨hp, fun d hd => ?_⟩
    obtain ⟨u, hu, hid, hc⟩ := hall d hd
    exact ⟨u, ⟨hu, hc⟩, hid⟩

theorem c2_runnable_iff_pending_and_deps_completed_witness :
    chainTask2 ∈ chainPlan.tasks ∧
    (chainTask2 ∈ chainPlan.get_next_runnable_tasks ↔
      (chainTask2.status = "pending" ∧
        ∀ d ∈ chainTask2.depends_on, ∃ u ∈ chainPlan.tasks, u.id = d ∧ u.status = "completed")) :=
  ⟨by decide, c2_runnable_iff_pending_and_deps_completed chainPlan chainTask2 (by decide)⟩

theorem applyOp_status_ne_pending (t : AgentTask) (op : TaskOp) :
    (applyOp t op).status ≠ "pending" := by
  cases op with
  | started => exact (by decide : ("running" : String) ≠ "pending")
  | completed r => exact (by decide : ("completed" : String) ≠ "pending")
  | failed e => exact (by decide : ("failed" : String) ≠ "pending")

theorem applyOps_status_ne_pending (t : AgentTask) (ops : List TaskOp)
    (h : t.status ≠ "pending") : (applyOps t ops).status ≠ "pending" := by
  induction ops generalizing t with
  | nil => exact h
  | cons op ops ih => exact ih _ (applyOp_status_ne_pending t op)

/-- Claim C5: a task whose status is completed or failed can never be driven
back to pending by any sequence of `mark_started` / `mark_completed` /
`mark_failed`, and therefore never reappears in any plan's
`get_next_runnable_tasks` result. -/
theorem c5_terminal_is_terminal (t : AgentTask) (ops : List TaskOp)
    (h : t.status = "completed" ∨ t.status = "failed") :
    (applyOps t ops).status ≠ "pending" ∧
      ∀ p : ExecutionPlan, applyOps t ops ∉ p.get_next_runnable_tasks := by
  have h0 : t.status ≠ "pending" := by rcases h with h | h <;> rw [h] <;> decide
  have h1 := applyOps_status_ne_pending t ops h0
  refine ⟨h1, fun p hmem => ?_⟩
  rw [ExecutionPlan.get_next_runnable_tasks, List.mem_filter] at hmem
  have h2 := hmem.2
  rw [isRunnable] at h2
  simp only [Bool.and_eq_true, decide_eq_true_eq] at h2
  exact h1 h2.1

theorem c5_terminal_is_terminal_witness :
    ({ chainTask1 with status := "completed" } : AgentTask).status = "completed" ∧
    (applyOps { chainTask1 with status := "completed" } [TaskOp.started]).status ≠ "pending" :=
  ⟨rfl, (c5_terminal_is_terminal { chainTask1 with status := "completed" }
    [TaskOp.started] (Or.inl rfl)).1⟩

/-- Claim C8: when no registered agent's `can_handle` accepts the request,
`analyze_request` falls back to exactly the infrastructure type; and for
every request the result is nonempty. -/
theorem c8_analyze_request_fallback (r : String)
    (h : infraCanHandle r = false ∧ deployCanHandle r = false ∧ monitorCanHandle r = false) :
    analyzeRequest r = [AgentType.infrastructure] ∧ ∀ s, analyzeRequest s ≠ [] := by
  constructor
  · unfold analyzeRequest registeredAgents
    simp [h.1, h.2.1, h.2.2]
  · intro s
    unfold analyzeRequest
    by_cases hreq : (registeredAgents.filter (fun a => a.2 s)).map Prod.fst = []
    · simp [hreq]
    · simp [hreq]

theorem c8_analyze_request_fallback_witness :
    (infraCanHandle "" = false ∧ deployCanHandle "" = false ∧ monitorCanHandle "" = false) ∧
    analyzeRequest "" = [AgentType.infrastructure] :=
  ⟨by decide, (c8_analyze_request_fallback "" (by decide)).1⟩

theorem mkTasksFrom_length (pid req : String) (k : Nat) (tys : List AgentType) :
    (mkTasksFrom pid req k tys).length = tys.length := by
  induction tys generalizing k with
  | nil => rfl
  | cons ty tys ih => simp [mkTasksFrom, ih]

theorem mkTasksFrom_get? (pid req : String) (k i : Nat) (tys : List AgentType) :
    (mkTasksFrom pid req k tys).get? i =
      (tys.get? i).map (fun ty => mkTask pid req (k + i) ty) := by
  induction tys generalizing k i with
  | nil => simp [mkTasksFrom]
  | cons ty tys ih =>
    cases i with
    | zero => simp [mkTasksFrom]
    | succ j =>
      have harith : k + 1 + j = k + (j + 1) := by omega
      rw [show mkTasksFrom pid req k (ty :: tys)
            = mkTask pid req k ty :: mkTasksFrom pid req (k + 1) tys from rfl]
      rw [List.get?_cons_succ, List.get?_cons_succ, ih (k + 1) j, harith]

/-- Claim C6: `create_plan` builds one task per agent type returned by
`analyze_request`, in order; the first task has no dependencies and each
later task depends exactly on the id of its predecessor.  For the scenario
request the analysis yields infrastructure then deployment, giving a
two-task plan. -/
theorem c6_create_plan_linear_chain (plan_id request : String) (plan_name : Option String) :
    ((createPlan plan_id plan_name request).tasks.length = (analyzeRequest request).length) ∧
    (∀ i t, (createPlan plan_id plan_name request).tasks.get? i = some t →
      (analyzeRequest request).get? i = some t.agent_type) ∧
    (∀ t, (createPlan plan_id plan_name request).tasks.get? 0 = some t → t.depends_on = []) ∧
    (∀ i ti tj, (createPlan plan_id plan_name request).tasks.get? i = some ti →
      (createPlan plan_id plan_name request).tasks.get? (i + 1) = some tj →
      tj.depends_on = [ti.id]) ∧
    analyzeRequest scenarioRequest = [AgentType.infrastructure, AgentType.deployment] ∧
    (createPlan plan_id plan_name scenarioRequest).tasks.length = 2 := by
  have hscen : analyzeRequest scenarioRequest
      = [AgentType.infrastructure, AgentType.deployment] := by decide
  have htasks : ∀ r : String, (createPlan plan_id plan_name r).tasks
      = mkTasksFrom plan_id r 0 (analyzeRequest r) := fun r => rfl
  refine ⟨?_, ?_, ?_, ?_, hscen, ?_⟩
  · rw [htasks, mkTasksFrom_length]
  · intro i t h
    rw [htasks, mkTasksFrom_get?] at h
    cases hg : (analyzeRequest request).get? i with
    | none => rw [hg] at h; exact absurd h (by simp)
    | some ty =>
      rw [hg] at h
      simp only [Option.map_some'] at h
      injection h with h2
      subst h2
      rfl
  · intro t h
    rw [htasks, mkTasksFrom_get?] at h
    cases hg : (analyzeRequest request).get? 0 with
    | none => rw [hg] at h; exact absurd h (by simp)
    | some ty =>
      rw [hg] at h
      simp only [Option.map_some'] at h
      injection h with h2
      subst h2
      rfl
  · intro i ti tj hi hj
    rw [htasks, mkTasksFrom_get?] at hi hj
    cases hgi : (analyzeRequest request).get? i with
    | none => rw [hgi] at hi; exact absurd hi (by simp)
    | some tyi =>
      cases hgj : (analyzeRequest request).get? (i + 1) with
      | none => rw [hgj] at hj; exact absurd hj (by simp)
      | some tyj =>
        rw [hgi] at hi
        rw [hgj] at hj
        simp only [Option.map_some'] at hi hj
        injection hi with hi2
        injection hj with hj2
        subst hi2
        subst hj2
        simp [mkTask, Nat.zero_add, Nat.add_sub_cancel]
  · rw [htasks, mkTasksFrom_length, hscen]
    rfl

theorem c6_create_plan_linear_chain_witness :
    ((createPlan "plan-0" none scenarioRequest).tasks.get? 0
        = some (mkTask "plan-0" scenarioRequest 0 AgentType.infrastructure)) ∧
    ((createPlan "plan-0" none scenarioRequest).tasks.get? 1
        = some (mkTask "plan-0" scenarioRequest 1 AgentType.deployment)) ∧
    (mkTask "plan-0" scenarioRequest 1 AgentType.deployment).depends_on
        = [(mkTask "plan-0" scenarioRequest 0 AgentType.infrastructure).id] :=
  ⟨by decide, by decide,
    (c6_create_plan_linear_chain "plan-0" scenarioRequest none).2.2.2.1 0
      (mkTask "plan-0" scenarioRequest 0 AgentType.infrastructure)
      (mkTask "plan-0" scenarioRequest 1 AgentType.deployment)
      (by decide) (by decide)⟩

/-- Claim C7: `_execute_task` converts a missing agent registration and a
raising agent call into a failed task whose result is the singleton error
dictionary carrying the exception message; the function is total, so no
exception reaches the scheduling loop. -/
theorem c7_dispatch_failure_is_contained (env : AgentEnv) (t : AgentTask) :
    (env t.agent_type = none →
      (executeTask env t).status = "failed" ∧
      (executeTask env t).result = some [("error", noAgentError t.agent_type)]) ∧
    (∀ ag e, env t.agent_type = some ag →
      ag.execute_task t.mark_started = Except.error e →
      (executeTask env t).status = "failed" ∧
      (executeTask env t).result = some [("error", e)]) := by
  constructor
  · intro h
    unfold executeTask
    rw [h]
    exact ⟨rfl, rfl⟩
  · intro ag e hag herr
    unfold executeTask
    simp only [hag, herr]
    exact ⟨rfl, rfl⟩

theorem c7_dispatch_failure_is_contained_witness :
    ((fun _ => none : AgentEnv) chainTask1.agent_type = none) ∧
    ((executeTask (fun _ => none) chainTask1).status = "failed" ∧
      (executeTask (fun _ => none) chainTask1).result
        = some [("error", noAgentError chainTask1.agent_type)]) :=
  ⟨rfl, (c7_dispatch_failure_is_contained (fun _ => none) chainTask1).1 rfl⟩

/-- Claim C3: in the three-task linear chain where task t2's agent raises,
the loop completes t1, fails t2, never dispatches t3 (it stays pending), and
the plan ends failed. -/
theorem c3_failed_dependency_blocks_chain :
    (executePlanRun chainEnv chainPlan).map
        (fun p => (p.status, p.tasks.map (fun t => (t.id, t.status)))) =
      some ("failed", [("t1", "completed"), ("t2", "failed"), ("t3", "pending")]) := by
  decide

theorem executeTask_status (env : AgentEnv) (t : AgentTask) :
    (executeTask env t).status = "completed" ∨ (executeTask env t).status = "failed" := by
  cases hag : env t.agent_type with
  | none =>
    right
    unfold executeTask
    simp only [hag]
    rfl
  | some ag =>
    cases hx : ag.execute_task t.mark_started with
    | ok r =>
      left
      unfold executeTask
      simp only [hag, hx]
      rfl
    | error e =>
      right
      unfold executeTask
      simp only [hag, hx]
      rfl

theorem executeTask_status_ne_pending (env : AgentEnv) (t : AgentTask) :
    (executeTask env t).status ≠ "pending" := by
  rcases executeTask_status env t with h | h <;> rw [h] <;> decide

theorem executeTask_id (env : AgentEnv) (t : AgentTask) :
    (executeTask env t).id = t.id := by
  cases hag : env t.agent_type with
  | none =>
    unfold executeTask
    simp only [hag]
    rfl
  | some ag =>
    cases hx : ag.execute_task t.mark_started with
    | ok r =>
      unfold executeTask
      simp only [hag, hx]
      rfl
    | error e =>
      unfold executeTask
      simp only [hag, hx]
      rfl

theorem countPending_cons (t : AgentTask) (ts : List AgentTask) :
    countPending (t :: ts) = (if t.status = "pending" then 1 else 0) + countPending ts := by
  unfold countPending
  rw [List.countP_cons]
  by_cases h : t.status = "pending"
  · simp [h]
    omega
  · simp [h]

theorem countPending_step_le (env : AgentEnv) (r : AgentTask → Bool) (ts : List AgentTask) :
    countPending (ts.map (fun t => if r t then executeTask env t else t)) ≤ countPending ts := by
  induction ts with
  | nil => exact Nat.le_refl _
  | cons a ts ih =>
    rw [List.map_cons, countPending_cons, countPending_cons]
    by_cases hra : r a = true
    · rw [if_pos hra, if_neg (executeTask_status_ne_pending env a)]
      by_cases hpa : a.status = "pending"
      · rw [if_pos hpa]; omega
      · rw [if_neg hpa]; omega
    · rw [if_neg hra]
      omega

theorem countPending_step_lt (env : AgentEnv) (r : AgentTask → Bool) (ts : List AgentTask)
    (hr : ∀ t, r t = true → t.status = "pending") (h : ∃ t ∈ ts, r t = true) :
    countPending (ts.map (fun t => if r t then executeTask env t else t)) < countPending ts := by
  induction ts with
  | nil => exact absurd h (by simp)
  | cons a ts ih =>
    rw [List.map_cons, countPending_cons, countPending_cons]
    by_cases hra : r a = true
    · rw [if_pos hra, if_neg (executeTask_status_ne_pending env a), if_pos (hr a hra)]
      have hle := countPending_step_le env r ts
      omega
    · rw [if_neg hra]
      have hex : ∃ t ∈ ts, r t = true := by
        obtain ⟨t, ht, hrt⟩ := h
        rcases List.mem_cons.mp ht with heq | htt
        · rw [heq] at hrt; exact absurd hrt hra
        · exact ⟨t, htt, hrt⟩
      have := ih hex
      omega

theorem isRunnable_pending (cids : List String) (t : AgentTask)
    (h : isRunnable cids t = true) : t.status = "pending" := by
  unfold isRunnable at h
  simp only [Bool.and_eq_true, decide_eq_true_eq] at h
  exact h.1

theorem runnable_nonempty_exists (p : ExecutionPlan) (h : p.get_next_runnable_tasks ≠ []) :
    ∃ t ∈ p.tasks, isRunnable (completedTaskIds p.tasks) t = true := by
  unfold ExecutionPlan.get_next_runnable_tasks at h
  obtain ⟨t, ht⟩ := List.exists_mem_of_ne_nil _ h
  rw [List.mem_filter] at ht
  exact ⟨t, ht.1, ht.2⟩

theorem stepPlan_decreases (env : AgentEnv) (p : ExecutionPlan)
    (h : p.get_next_runnable_tasks ≠ []) :
    countPending (stepPlan env p).tasks < countPending p.tasks := by
  exact countPending_step_lt env _ p.tasks (fun t => isRunnable_pending _ t)
    (runnable_nonempty_exists p h)

theorem execLoop_total (env : AgentEnv) :
    ∀ fuel p, countPending p.tasks < fuel → ∃ q, execLoop env fuel p = some q := by
  intro fuel
  induction fuel with
  | zero => intro p h; exact absurd h (Nat.not_lt_zero _)
  | succ n ih =>
    intro p h
    unfold execLoop
    by_cases hr : p.get_next_runnable_tasks = []
    · rw [if_pos hr]; exact ⟨_, rfl⟩
    · rw [if_neg hr]
      apply ih
      have := stepPlan_decreases env p hr
      omega

theorem execLoop_some_terminal (env : AgentEnv) :
    ∀ fuel p q, execLoop env fuel p = some q →
      q.status = "completed" ∨ q.status = "failed" := by
  intro fuel
  induction fuel with
  | zero => intro p q h; exact absurd h (by simp [execLoop])
  | succ n ih =>
    intro p q h
    unfold execLoop at h
    by_cases hr : p.get_next_runnable_tasks = []
    · rw [if_pos hr] at h
      by_cases hc : p.is_complete = true
      · rw [if_pos hc] at h
        injection h with h2
        rw [← h2]
        left; rfl
      · rw [if_neg hc] at h
        injection h with h2
        rw [← h2]
        right; rfl
    · rw [if_neg hr] at h
      exact ih _ _ h

theorem cyclePending_blocks (ts : List AgentTask) (ids : List String)
    (hc : cyclePending ts ids) :
    ∀ t ∈ ts, t.id ∈ ids → isRunnable (completedTaskIds ts) t = false := by
  obtain ⟨hne, hids, hall⟩ := hc
  intro t ht hid
  obtain ⟨hpend, d, hd, hdid⟩ := hall t ht hid
  cases hb : isRunnable (completedTaskIds ts) t with
  | false => rfl
  | true =>
    exfalso
    unfold isRunnable at hb
    simp only [Bool.and_eq_true, decide_eq_true_eq, List.all_eq_true] at hb
    have hdep : d ∈ completedTaskIds ts := hb.2 d hd
    unfold completedTaskIds at hdep
    rw [List.mem_map] at hdep
    obtain ⟨u, hu, huid⟩ := hdep
    rw [List.mem_filter] at hu
    have hucomp : u.status = "completed" := by simpa using hu.2
    have huin : u.id ∈ ids := by rw [huid]; exact hdid
    have hupend := (hall u hu.1 huin).1
    rw [hupend] at hucomp
    exact absurd hucomp (by decide)

theorem cyclePending_step (env : AgentEnv) (p : ExecutionPlan) (ids : List String)
    (hc : cyclePending p.tasks ids) : cyclePending (stepPlan env p).tasks ids := by
  have hblocks := cyclePending_blocks p.tasks ids hc
  obtain ⟨hne, hids, hall⟩ := hc
  have hmap : (stepPlan env p).tasks = p.tasks.map
      (fun t => if isRunnable (completedTaskIds p.tasks) t then executeTask env t else t) := rfl
  refine ⟨hne, ?_, ?_⟩
  · intro i hi
    obtain ⟨t, ht, hid⟩ := hids i hi
    refine ⟨if isRunnable (completedTaskIds p.tasks) t then executeTask env t else t, ?_, ?_⟩
    · rw [hmap]; exact List.mem_map_of_mem _ ht
    · by_cases hr : isRunnable (completedTaskIds p.tasks) t = true
      · rw [if_pos hr, executeTask_id]; exact hid
      · rw [if_neg hr]; exact hid
  · intro t2 ht2 hid2
    rw [hmap, List.mem_map] at ht2
    obtain ⟨t, ht, hft⟩ := ht2
    have htid : t.id ∈ ids := by
      by_cases hr : isRunnable (completedTaskIds p.tasks) t = true
      · rw [if_pos hr] at hft
        rw [← hft, executeTask_id] at hid2
        exact hid2
      · rw [if_neg hr] at hft
        rw [← hft] at hid2
        exact hid2
    have hrf : ¬ isRunnable (completedTaskIds p.tasks) t = true := by
      rw [hblocks t ht htid]; decide
    rw [if_neg hrf] at hft
    rw [← hft]
    exact hall t ht htid

theorem cyclePending_not_complete (p : ExecutionPlan) (ids : List String)
    (hc : cyclePending p.tasks ids) : p.is_complete = false := by
  obtain ⟨hne, hids, hall⟩ := hc
  obtain ⟨i, hi⟩ : ∃ i, i ∈ ids := by
    cases ids with
    | nil => exact absurd rfl hne
    | cons a l => exact ⟨a, List.mem_cons_self a l⟩
  obtain ⟨t, ht, hid⟩ := hids i hi
  have hpend := (hall t ht (by rw [hid]; exact hi)).1
  unfold ExecutionPlan.is_complete
  refine Bool.eq_false_iff.mpr (fun hb => ?_)
  rw [List.all_eq_true] at hb
  have h2 := hb t ht
  rw [hpend] at h2
  exact absurd h2 (by decide)

theorem execLoop_cycle (env : AgentEnv) (ids : List String) :
    ∀ fuel p, cyclePending p.tasks ids → countPending p.tasks < fuel →
      ∃ q, execLoop env fuel p = some q ∧ q.status = "failed" ∧
        q.get_next_runnable_tasks = [] ∧ q.is_complete = false := by
  intro fuel
  induction fuel with
  | zero => intro p hc h; exact absurd h (Nat.not_lt_zero _)
  | succ n ih =>
    intro p hc h
    unfold execLoop
    by_cases hr : p.get_next_runnable_tasks = []
    · rw [if_pos hr]
      have hnc : p.is_complete = false := cyclePending_not_complete p ids hc
      have hcond : ¬ (p.is_complete = true) := by rw [hnc]; decide
      rw [if_neg hcond]
      exact ⟨p.mark_failed, rfl, rfl, hr, cyclePending_not_complete p.mark_failed ids hc⟩
    · rw [if_neg hr]
      exact ih (stepPlan env p) (cyclePending_step env p ids hc)
        (by have := stepPlan_decreases env p hr; omega)

/-- Claim C1: for every plan the scheduling loop of `_execute_plan` exits
within `countPending + 1` iterations and leaves the plan completed or
failed; when the pending tasks contain a dependency cycle (any
`cyclePending` witness), the runnable set is empty at exit while the plan is
not complete, and the plan ends failed. -/
theorem c1_scheduling_loop_terminates (env : AgentEnv) (p : ExecutionPlan) :
    (∃ q, executePlanRun env p = some q) ∧
    (∀ q, executePlanRun env p = some q → q.status = "completed" ∨ q.status = "failed") ∧
    (∀ ids q, cyclePending p.tasks ids → executePlanRun env p = some q →
      q.status = "failed" ∧ q.get_next_runnable_tasks = [] ∧ q.is_complete = false) := by
  refine ⟨?_, ?_, ?_⟩
  · exact execLoop_total env (countPending p.tasks + 1) p.mark_started
      (Nat.lt_succ_self (countPending p.tasks))
  · intro q h
    exact execLoop_some_terminal env _ _ q h
  · intro ids q hc h
    obtain ⟨q2, hq2, hst, hrun, hcomp⟩ := execLoop_cycle env ids (countPending p.tasks + 1)
      p.mark_started hc (Nat.lt_succ_self (countPending p.tasks))
    rw [show executePlanRun env p
        = execLoop env (countPending p.tasks + 1) p.mark_started from rfl] at h
    rw [h] at hq2
    injection hq2 with he
    rw [← he] at hst hrun hcomp
    exact ⟨hst, hrun, hcomp⟩

theorem c1_scheduling_loop_terminates_witness :
    cyclePending cyclePlan.tasks ["a", "b"] ∧
    (({ cyclePlan with status := "failed" } : ExecutionPlan).status = "failed" ∧
      ({ cyclePlan with status := "failed" } : ExecutionPlan).get_next_runnable_tasks = [] ∧
      ({ cyclePlan with status := "failed" } : ExecutionPlan).is_complete = false) :=
  ⟨by decide, (c1_scheduling_loop_terminates chainEnv cyclePlan).2.2 ["a", "b"]
    { cyclePlan with status := "failed" } (by decide) (by decide)⟩

theorem dlookup_derase {β : Type} (d : List (String × β)) (k : String) :
    dlookup (derase d k) k = none := by
  induction d with
  | nil => rfl
  | cons e d ih =>
    by_cases he : e.1 = k
    · have hstep : derase (e :: d) k = derase d k := by
        unfold derase
        rw [List.filter_cons, if_neg (by simp [he])]
      rw [hstep]
      exact ih
    · have hstep : derase (e :: d) k = e :: derase d k := by
        unfold derase
        rw [List.filter_cons, if_pos (by simp [he])]
      rw [hstep]
      rw [show dlookup (e :: derase d k) k
          = if e.1 = k then some e.2 else dlookup (derase d k) k from rfl]
      rw [if_neg he]
      exact ih

/-- Claim C10: a synchronous `execute_plan` run finishes with the plan
terminal and deleted from `active_plans`, so a subsequent `get_plan_status`
on its id answers not-found (the asynchronous driver runs the very same
`_execute_plan` body, modelled here, after its `execute_plan` call
returns). -/
theorem c10_finished_plan_not_in_registry (env : AgentEnv) (st : OrchState)
    (plan : ExecutionPlan) :
    ∃ st2 q, executePlanSync env st plan = some (st2, q) ∧
      getPlanStatus st2 plan.id = none ∧
      (q.status = "completed" ∨ q.status = "failed") := by
  obtain ⟨q, hq⟩ := execLoop_total env (countPending plan.tasks + 1) plan.mark_started
    (Nat.lt_succ_self (countPending plan.tasks))
  refine ⟨{ active_plans := derase (dinsert st.active_plans plan.id plan) plan.id }, q,
    ?_, ?_, ?_⟩
  · unfold executePlanSync
    dsimp only
    rw [dlookup_dinsert_self]
    show (match execLoop env (countPending plan.tasks + 1) plan.mark_started with
      | none => (none : Option (OrchState × ExecutionPlan))
      | some q2 => some
          (({ active_plans := derase (dinsert st.active_plans plan.id plan) plan.id } : OrchState), q2))
      = some (({ active_plans := derase (dinsert st.active_plans plan.id plan) plan.id } : OrchState), q)
    rw [hq]
  · exact dlookup_derase _ _
  · exact execLoop_some_terminal env _ _ q hq

theorem dinsert_cons {β : Type} (a1 : String) (a2 : β) (d : List (String × β))
    (k : String) (v : β) :
    dinsert ((a1, a2) :: d) k v
      = if a1 = k then (k, v) :: d else (a1, a2) :: dinsert d k v := rfl

theorem dlookup_cons {β : Type} (a1 : String) (a2 : β) (d : List (String × β)) (k : String) :
    dlookup ((a1, a2) :: d) k = if a1 = k then some a2 else dlookup d k := rfl

theorem mem_dkeys_dinsert {β : Type} (d : List (String × β)) (k : String) (v : β) (a : String) :
    a ∈ dkeys (dinsert d k v) ↔ a ∈ dkeys d ∨ a = k := by
  induction d with
  | nil => simp [dinsert, dkeys]
  | cons e d ih =>
    obtain ⟨e1, e2⟩ := e
    rw [dinsert_cons]
    by_cases he : e1 = k
    · rw [if_pos he]
      rw [show dkeys ((k, v) :: d) = k :: dkeys d from rfl,
        show dkeys ((e1, e2) :: d) = e1 :: dkeys d from rfl]
      simp [he]
      tauto
    · rw [if_neg he]
      rw [show dkeys ((e1, e2) :: dinsert d k v) = e1 :: dkeys (dinsert d k v) from rfl,
        show dkeys ((e1, e2) :: d) = e1 :: dkeys d from rfl]
      simp [ih]
      tauto

theorem nodup_dkeys_dinsert {β : Type} (d : List (String × β)) (k : String) (v : β)
    (h : (dkeys d).Nodup) : (dkeys (dinsert d k v)).Nodup := by
  induction d with
  | nil => simp [dinsert, dkeys]
  | cons e d ih =>
    obtain ⟨e1, e2⟩ := e
    have h' : e1 ∉ dkeys d ∧ (dkeys d).Nodup := List.nodup_cons.mp h
    rw [dinsert_cons]
    by_cases he : e1 = k
    · rw [if_pos he]
      rw [show dkeys ((k, v) :: d) = k :: dkeys d from rfl, List.nodup_cons]
      exact ⟨he ▸ h'.1, h'.2⟩
    · rw [if_neg he]
      rw [show dkeys ((e1, e2) :: dinsert d k v) = e1 :: dkeys (dinsert d k v) from rfl,
        List.nodup_cons]
      refine ⟨?_, ih h'.2⟩
      intro hmem
      rcases (mem_dkeys_dinsert d k v e1).mp hmem with hin | heq
      · exact h'.1 hin
      · exact he heq

theorem dlookup_some_mem {β : Type} (d : List (String × β)) (k : String) (v : β)
    (h : dlookup d k = some v) : (k, v) ∈ d := by
  induction d with
  | nil => exact absurd h (by simp [dlookup])
  | cons e d ih =>
    obtain ⟨e1, e2⟩ := e
    rw [dlookup_cons] at h
    by_cases he : e1 = k
    · rw [if_pos he] at h
      injection h with hv
      rw [← he, ← hv]
      exact List.mem_cons_self _ d
    · rw [if_neg he] at h
      exact List.mem_cons_of_mem _ (ih h)

theorem dlookup_of_mem_nodup {β : Type} (d : List (String × β)) (k : String) (v : β)
    (hnd : (dkeys d).Nodup) (h : (k, v) ∈ d) : dlookup d k = some v := by
  induction d with
  | nil => exact absurd h (List.not_mem_nil _)
  | cons e d ih =>
    obtain ⟨e1, e2⟩ := e
    have hnd' : e1 ∉ dkeys d ∧ (dkeys d).Nodup := List.nodup_cons.mp hnd
    rw [dlookup_cons]
    rcases List.mem_cons.mp h with heq | htail
    · injection heq with h1 h2
      rw [if_pos h1.symm]
      rw [h2]
    · by_cases he : e1 = k
      · exfalso
        have hkin : k ∈ dkeys d := List.mem_map_of_mem Prod.fst htail
        exact hnd'.1 (he ▸ hkin)
      · rw [if_neg he]
        exact ih hnd'.2 htail

theorem mem_dinsert {β : Type} (d : List (String × β)) (k : String) (v : β) (e : String × β)
    (h : e ∈ dinsert d k v) : e ∈ d ∨ e = (k, v) := by
  induction d with
  | nil =>
    right
    rw [show dinsert ([] : List (String × β)) k v = [(k, v)] from rfl] at h
    simpa using h
  | cons a d ih =>
    obtain ⟨a1, a2⟩ := a
    rw [dinsert_cons] at h
    by_cases ha : a1 = k
    · rw [if_pos ha] at h
      rcases List.mem_cons.mp h with heq | htail
      · right; exact heq
      · left; exact List.mem_cons_of_mem _ htail
    · rw [if_neg ha] at h
      rcases List.mem_cons.mp h with heq | htail
      · left; rw [heq]; exact List.mem_cons_self _ d
      · rcases ih htail with hin | heq
        · left; exact List.mem_cons_of_mem _ hin
        · right; exact heq

theorem mem_dinsert_of_ne {β : Type} (d : List (String × β)) (k : String) (v : β)
    (e : String × β) (h : e ∈ d) (hne : e.1 ≠ k) : e ∈ dinsert d k v := by
  induction d with
  | nil => exact absurd h (List.not_mem_nil _)
  | cons a d ih =>
    obtain ⟨a1, a2⟩ := a
    rw [dinsert_cons]
    by_cases ha : a1 = k
    · rw [if_pos ha]
      rcases List.mem_cons.mp h with heq | htail
      · exfalso; rw [heq] at hne; exact hne ha
      · exact List.mem_cons_of_mem _ htail
    · rw [if_neg ha]
      rcases List.mem_cons.mp h with heq | htail
      · rw [heq]; exact List.mem_cons_self _ _
      · exact List.mem_cons_of_mem _ (ih htail)

theorem mem_dinsert_self {β : Type} (d : List (String × β)) (k : String) (v : β) :
    (k, v) ∈ dinsert d k v := by
  induction d with
  | nil => simp [dinsert]
  | cons a d ih =>
    obtain ⟨a1, a2⟩ := a
    rw [dinsert_cons]
    by_cases ha : a1 = k
    · rw [if_pos ha]
      exact List.mem_cons_self _ d
    · rw [if_neg ha]
      exact List.mem_cons_of_mem _ ih

theorem dinsert_fresh {β : Type} (d : List (String × β)) (k : String) (v : β)
    (h : k ∉ dkeys d) : dinsert d k v = d ++ [(k, v)] := by
  induction d with
  | nil => rfl
  | cons a d ih =>
    obtain ⟨a1, a2⟩ := a
    have ha : a1 ≠ k := by
      intro hh
      exact h (by rw [← hh]; exact List.mem_cons_self a1 (dkeys d))
    rw [dinsert_cons, if_neg ha, ih (fun hm => h (List.mem_cons_of_mem a1 hm))]
    rfl

theorem groupLookup_dinsert_self (rs : List (String × Resource)) (rid : String) (r : Resource)
    (ty : String) :
    groupLookup (dinsert rs rid r) ty rid = if r.type = ty then some r else none := by
  unfold groupLookup
  rw [dlookup_dinsert_self]

theorem groupLookup_dinsert_ne (rs : List (String × Resource)) (rid : String) (r : Resource)
    (ty i : String) (h : i ≠ rid) :
    groupLookup (dinsert rs rid r) ty i = groupLookup rs ty i := by
  unfold groupLookup
  rw [dlookup_dinsert_ne _ _ _ _ (fun hh => h hh.symm)]

theorem groupLookup_none (rs : List (String × Resource)) (ty i : String)
    (h : ∀ e ∈ rs, e.2.type ≠ ty) : groupLookup rs ty i = none := by
  unfold groupLookup
  cases hy : dlookup rs i with
  | none => rfl
  | some r0 =>
    show (if r0.type = ty then some r0 else none) = none
    rw [if_neg (h (i, r0) (dlookup_some_mem rs i r0 hy))]

theorem indexGroups_step (idx : List (String × List (String × Resource)))
    (rs : List (String × Resource)) (ty rid : String) (r : Resource)
    (hnd : (dkeys rs).Nodup) (hty : r.type = ty)
    (hcompat : ∀ r0, dlookup rs rid = some r0 → r0.type = ty)
    (hinv : IndexGroups idx rs) :
    IndexGroups (indexInsert idx ty rid r) (dinsert rs rid r) := by
  obtain ⟨hnone, hsome⟩ := hinv
  constructor
  · intro T hT e he
    unfold indexInsert at hT
    by_cases hTy : ty = T
    · exfalso
      rw [← hTy, dlookup_dinsert_self] at hT
      exact Option.noConfusion hT
    · rw [dlookup_dinsert_ne _ _ _ _ hTy] at hT
      rcases mem_dinsert rs rid r e he with hin | heq
      · exact hnone T hT e hin
      · rw [heq]
        intro hET
        exact hTy (by rw [← hty]; exact hET)
  · intro T inner hT
    unfold indexInsert at hT
    by_cases hTy : ty = T
    · subst hTy
      rw [dlookup_dinsert_self] at hT
      injection hT with hinner
      constructor
      · exact ⟨(rid, r), mem_dinsert_self rs rid r, hty⟩
      · intro i
        rw [← hinner]
        by_cases hi : i = rid
        · subst hi
          rw [dlookup_dinsert_self, groupLookup_dinsert_self, if_pos hty]
        · rw [dlookup_dinsert_ne _ _ _ _ (fun hh => hi hh.symm),
            groupLookup_dinsert_ne rs rid r ty i hi]
          cases hx : dlookup idx ty with
          | some inner1 => exact (hsome ty inner1 hx).2 i
          | none =>
            rw [groupLookup_none rs ty i (hnone ty hx)]
            rfl
    · rw [dlookup_dinsert_ne _ _ _ _ hTy] at hT
      obtain ⟨hex, hpt⟩ := hsome T inner hT
      constructor
      · obtain ⟨e, he, hety⟩ := hex
        by_cases hek : e.1 = rid
        · exfalso
          have hmem : (e.1, e.2) ∈ rs := by rw [Prod.mk.eta]; exact he
          have hl : dlookup rs rid = some e.2 := by
            rw [← hek]
            exact dlookup_of_mem_nodup rs e.1 e.2 hnd hmem
          have hct := hcompat e.2 hl
          exact hTy (by rw [← hct]; exact hety)
        · exact ⟨e, mem_dinsert_of_ne rs rid r e he hek, hety⟩
      · intro i
        rw [hpt i]
        by_cases hi : i = rid
        · subst hi
          rw [groupLookup_dinsert_self,
            if_neg (fun hh : r.type = T => hTy (by rw [← hty]; exact hh))]
          unfold groupLookup
          cases hy : dlookup rs i with
          | none => rfl
          | some r0 =>
            show (if r0.type = T then some r0 else none) = none
            rw [if_neg (fun hh : r0.type = T => hTy (by rw [← hcompat r0 hy]; exact hh))]
        · rw [groupLookup_dinsert_ne rs rid r T i hi]

theorem dkeys_append {β : Type} (d1 d2 : List (String × β)) :
    dkeys (d1 ++ d2) = dkeys d1 ++ dkeys d2 := by
  unfold dkeys
  exact List.map_append Prod.fst d1 d2

theorem indexGroups_rebuild_aux :
    ∀ (rs pre : List (String × Resource)) (idx : List (String × List (String × Resource))),
      IndexGroups idx pre → (dkeys (pre ++ rs)).Nodup →
      IndexGroups (rs.foldl (fun idx e => indexInsert idx e.2.type e.1 e.2) idx) (pre ++ rs) := by
  intro rs
  induction rs with
  | nil =>
    intro pre idx hinv hnd
    rw [List.append_nil]
    exact hinv
  | cons e rs ih =>
    intro pre idx hinv hnd
    rw [List.foldl_cons]
    have hkeys : dkeys (pre ++ e :: rs) = dkeys pre ++ e.1 :: dkeys rs := by
      rw [dkeys_append]
      rfl
    rw [hkeys] at hnd
    have hfresh : e.1 ∉ dkeys pre := by
      intro hmem
      exact List.disjoint_of_nodup_append hnd hmem (List.mem_cons_self _ _)
    have hnd_pre : (dkeys pre).Nodup := hnd.of_append_left
    have hcompat : ∀ r0, dlookup pre e.1 = some r0 → r0.type = e.2.type := by
      intro r0 hl
      exact absurd (List.mem_map_of_mem Prod.fst (dlookup_some_mem pre e.1 r0 hl)) hfresh
    have hstep := indexGroups_step idx pre e.2.type e.1 e.2 hnd_pre rfl hcompat hinv
    have hins : dinsert pre e.1 e.2 = pre ++ [e] := by
      rw [dinsert_fresh pre e.1 e.2 hfresh, Prod.mk.eta]
    rw [hins] at hstep
    have hnd2 : (dkeys ((pre ++ [e]) ++ rs)).Nodup := by
      have heq : (pre ++ [e]) ++ rs = pre ++ e :: rs := by simp
      rw [heq, hkeys]
      exact hnd
    have hres := ih (pre ++ [e]) _ hstep hnd2
    have heq : (pre ++ [e]) ++ rs = pre ++ e :: rs := by simp
    rw [heq] at hres
    exact hres

theorem indexGroups_rebuild (rs : List (String × Resource)) (hnd : (dkeys rs).Nodup) :
    IndexGroups (rebuildIndex rs) rs := by
  have hbase : IndexGroups [] [] := by
    constructor
    · intro T hT e he
      exact absurd he (List.not_mem_nil e)
    · intro T inner hT
      exact Option.noConfusion hT
  have h := indexGroups_rebuild_aux rs [] [] hbase (by simpa using hnd)
  simpa using h

theorem applyRegs_invariant :
    ∀ (ops : List RegOp) (kb : KnowledgeBase),
      (dkeys kb.resources).Nodup → IndexGroups kb.resources_by_type kb.resources →
      consistentOps ops = true → compatOps kb.resources ops →
      (dkeys (applyRegs ops kb).resources).Nodup ∧
        IndexGroups (applyRegs ops kb).resources_by_type (applyRegs ops kb).resources := by
  intro ops
  induction ops with
  | nil =>
    intro kb h1 h2 _ _
    exact ⟨h1, h2⟩
  | cons o os ih =>
    intro kb h1 h2 hcons hcompat
    rw [show applyRegs (o :: os) kb
        = applyRegs os (kb.register_resource o.type o.id o.metadata o.now) from rfl]
    unfold consistentOps at hcons
    rw [Bool.and_eq_true] at hcons
    have hcons2 := hcons
    have hpair : ∀ o2 ∈ os, o2.id = o.id → o2.type = o.type := by
      intro o2 ho2 hid
      have hb := List.all_eq_true.mp hcons2.1 o2 ho2
      simp [hid] at hb
      exact hb
    have hstep_nd : (dkeys (kb.register_resource o.type o.id o.metadata o.now).resources).Nodup :=
      nodup_dkeys_dinsert kb.resources o.id _ h1
    have hstep_inv : IndexGroups
        (kb.register_resource o.type o.id o.metadata o.now).resources_by_type
        (kb.register_resource o.type o.id o.metadata o.now).resources :=
      indexGroups_step kb.resources_by_type kb.resources o.type o.id _ h1 rfl
        (hcompat o (List.mem_cons_self o os)) h2
    have hstep_compat :
        compatOps (kb.register_resource o.type o.id o.metadata o.now).resources os := by
      intro o2 ho2 r0 hl
      rw [show (kb.register_resource o.type o.id o.metadata o.now).resources
          = dinsert kb.resources o.id
              { type := o.type, id := o.id, metadata := o.metadata, created_at := o.now }
          from rfl] at hl
      by_cases hid : o2.id = o.id
      · rw [hid, dlookup_dinsert_self] at hl
        injection hl with hr0
        rw [← hr0]
        exact (hpair o2 ho2 hid).symm
      · rw [dlookup_dinsert_ne _ _ _ _ (fun hh => hid hh.symm)] at hl
        exact hcompat o2 (List.mem_cons_of_mem o ho2) r0 hl
    exact ih _ hstep_nd hstep_inv hcons2.2 hstep_compat

theorem indexGroups_eqv (idx1 idx2 : List (String × List (String × Resource)))
    (rs : List (String × Resource))
    (h1 : IndexGroups idx1 rs) (h2 : IndexGroups idx2 rs) : idxEqv idx1 idx2 := by
  intro T
  cases hx : dlookup idx1 T with
  | none =>
    cases hy : dlookup idx2 T with
    | none => exact trivial
    | some inner2 =>
      exfalso
      obtain ⟨⟨e, he, hty⟩, _⟩ := h2.2 T inner2 hy
      exact h1.1 T hx e he hty
  | some inner1 =>
    cases hy : dlookup idx2 T with
    | none =>
      exfalso
      obtain ⟨⟨e, he, hty⟩, _⟩ := h1.2 T inner1 hx
      exact h2.1 T hy e he hty
    | some inner2 =>
      intro i
      rw [(h1.2 T inner1 hx).2 i, (h2.2 T inner2 hy).2 i]

/-- Claim C4, counterexample: after registering id x first under type A and
then under type B, `save` followed by a fresh `load` reproduces `resources`
but not `resources_by_type` — the rebuilt index has no bucket A while the
original index still carries the stale A entry, so the two indexes are not
equal (Python `==`). -/
theorem c4_roundtrip_counterexample :
    (loadKB ((applyRegs retypeOps kbEmpty).save)).resources
        = (applyRegs retypeOps kbEmpty).resources ∧
    ¬ idxEqv (loadKB ((applyRegs retypeOps kbEmpty).save)).resources_by_type
        (applyRegs retypeOps kbEmpty).resources_by_type := by
  refine ⟨rfl, fun h => ?_⟩
  exact h "A"

/-- Claim C4, amended: for every registration sequence in which no id is
re-registered under a different resource type, `save` followed by a fresh
instance's `load` reproduces the `resources` mapping exactly and an index
equal (pointwise, as Python `==` compares dicts) to the original
`resources_by_type`; without that restriction only `resources` is
reproduced, the index being rebuilt as the exact grouping of `resources` by
type. -/
theorem c4_roundtrip_amended (ops : List RegOp) (hcons : consistentOps ops = true) :
    (loadKB ((applyRegs ops kbEmpty).save)).resources = (applyRegs ops kbEmpty).resources ∧
    idxEqv (loadKB ((applyRegs ops kbEmpty).save)).resources_by_type
      (applyRegs ops kbEmpty).resources_by_type := by
  have hbase_nd : (dkeys kbEmpty.resources).Nodup := List.nodup_nil
  have hbase_inv : IndexGroups kbEmpty.resources_by_type kbEmpty.resources := by
    constructor
    · intro T hT e he
      exact absurd he (List.not_mem_nil e)
    · intro T inner hT
      exact Option.noConfusion hT
  have hbase_compat : compatOps kbEmpty.resources ops := by
    intro o ho r hl
    exact Option.noConfusion hl
  obtain ⟨hnd, hinv⟩ := applyRegs_invariant ops kbEmpty hbase_nd hbase_inv hcons hbase_compat
  exact ⟨rfl, indexGroups_eqv _ _ _ (indexGroups_rebuild _ hnd) hinv⟩

theorem c4_roundtrip_amended_witness :
    consistentOps consistentOpsExample = true ∧
    ((loadKB ((applyRegs consistentOpsExample kbEmpty).save)).resources
        = (applyRegs consistentOpsExample kbEmpty).resources ∧
      idxEqv (loadKB ((applyRegs consistentOpsExample kbEmpty).save)).resources_by_type
        (applyRegs consistentOpsExample kbEmpty).resources_by_type) :=
  ⟨by decide, c4_roundtrip_amended consistentOpsExample (by decide)⟩
